import Mathlib

/-!
Verification development for the scantron master data model
(`master/django_scantron/models.py`) and its scheduling core.

Pure-functional shallow embedding: Django model classes become Lean
structures whose field validators become decidable predicates; the
database is an explicit `Store` record; the pieces of the system that
live outside the visible source (the `extract_targets` dependency, the
schedule materializer, the agent claim endpoint) are modelled from the
specification and marked as such in their doc comments.  Definitions
come first, followed by the theorems about them.
-/

/-! ## Character-list utilities (tokenisation of target expressions) -/

/-- Prepend a character to the first group of a split result. -/
def consGroup (c : Char) : List (List Char) → List (List Char)
  | [] => [[c]]
  | g :: gs => (c :: g) :: gs

/-- Split a character list on a separator character.  Always returns at
least one (possibly empty) group; adjacent separators yield empty groups. -/
def splitOnChar (sep : Char) : List Char → List (List Char)
  | [] => [[]]
  | c :: cs => if c = sep then [] :: splitOnChar sep cs else consGroup c (splitOnChar sep cs)

/-- Join a list of tokens with single spaces (inverse of space-splitting
for nonempty, space-free tokens). -/
def joinTokens : List (List Char) → List Char
  | [] => []
  | [t] => t
  | t :: ts => t ++ ' ' :: joinTokens ts

/-- Tokenize a target expression string on whitespace, dropping empty tokens. -/
def tokenize (s : String) : List (List Char) :=
  (splitOnChar ' ' s.data).filter (fun g => !g.isEmpty)

/-! ## Target token grammar

Modelled from the spec (§4.1 Target Extractor): the `extract_targets`
module imported by `models.py` is an external dependency whose source is
not part of the repository slice.  Each whitespace token is classified as
single IPv4, IPv4 CIDR, IPv4 range (`a.b.c.d-e.f.g.h`), single IPv6
(simplified grammar: 2–8 colon-separated groups of at most 4 hex digits),
IPv6 CIDR, or FQDN (nonempty alphanumeric/hyphen labels joined by dots,
labels start and end alphanumeric, at most 63 chars, at least two labels,
last label not all-digits so that out-of-range dotted quads are not
accepted as host names). -/

/-- Decimal value of a digit string. -/
def digitsToNat (g : List Char) : Nat :=
  g.foldl (fun n c => n * 10 + (c.toNat - 48)) 0

/-- Hexadecimal digit test. -/
def isHexChar (c : Char) : Bool :=
  c.isDigit || (c.isAlpha && (('a' ≤ c && c ≤ 'f') || ('A' ≤ c && c ≤ 'F')))

/-- Hexadecimal value of a hex digit string. -/
def hexToNat (g : List Char) : Nat :=
  g.foldl (fun n c =>
    n * 16 + (if c.isDigit then c.toNat - 48 else if 'a' ≤ c then c.toNat - 87 else c.toNat - 55)) 0

/-- One octet of a dotted quad: nonempty, all digits, value at most 255. -/
def isIPv4Octet (g : List Char) : Bool :=
  !g.isEmpty && g.all Char.isDigit && digitsToNat g ≤ 255

/-- Single IPv4 address token. -/
def isIPv4 (t : List Char) : Bool :=
  (splitOnChar '.' t).length == 4 && (splitOnChar '.' t).all isIPv4Octet

/-- IPv4 CIDR token: address, slash, prefix length at most 32. -/
def isIPv4Cidr (t : List Char) : Bool :=
  match splitOnChar '/' t with
  | [a, m] => isIPv4 a && !m.isEmpty && m.all Char.isDigit && digitsToNat m ≤ 32
  | _ => false

/-- IPv4 range token, `a.b.c.d-e.f.g.h` style. -/
def isIPv4Range (t : List Char) : Bool :=
  match splitOnChar '-' t with
  | [a, b] => isIPv4 a && isIPv4 b
  | _ => false

/-- Single IPv6 address token (simplified grammar, see section comment). -/
def isIPv6 (t : List Char) : Bool :=
  2 ≤ (splitOnChar ':' t).length && (splitOnChar ':' t).length ≤ 8 &&
  (splitOnChar ':' t).all (fun g => g.length ≤ 4 && g.all isHexChar)

/-- IPv6 CIDR token: address, slash, prefix length at most 128. -/
def isIPv6Cidr (t : List Char) : Bool :=
  match splitOnChar '/' t with
  | [a, m] => isIPv6 a && !m.isEmpty && m.all Char.isDigit && digitsToNat m ≤ 128
  | _ => false

/-- One FQDN label: nonempty, at most 63 chars, alphanumeric/hyphen,
starting and ending alphanumeric. -/
def labelOk (g : List Char) : Bool :=
  g.all (fun c => c.isAlphanum || c == '-') &&
  (match g.head? with | some c => c.isAlphanum | none => false) &&
  (match g.getLast? with | some c => c.isAlphanum | none => false) &&
  g.length ≤ 63

/-- FQDN token: at least two labels, each well-formed, last label not all digits. -/
def isFQDN (t : List Char) : Bool :=
  2 ≤ (splitOnChar '.' t).length && (splitOnChar '.' t).all labelOk &&
  (match (splitOnChar '.' t).getLast? with | some g => !g.all Char.isDigit | none => false)

/-- A token is valid when it matches one of the six shapes of spec §4.1. -/
def isValidToken (t : List Char) : Bool :=
  isIPv4 t || isIPv4Cidr t || isIPv4Range t || isIPv6 t || isIPv6Cidr t || isFQDN t

/-! ## Character-level facts about valid tokens -/

/-- The characters a token of any of the six valid shapes may contain:
letters, digits, `/`, `.`, `:`, and `-`. -/
def tokenCharOK (c : Char) : Bool :=
  c.isAlphanum || c == '/' || c == '.' || c == ':' || c == '-'

/-! ## Canonical ordering of tokens

Modelled from the spec (§4.1): "deduplicated, sorted by a total order
(numeric for IPs ascending by address value, CIDR before contained
singles, then FQDNs lexicographically after all IP-form tokens)".  The
order is realised by mapping every token to a `List Nat` key compared
lexicographically: IPv4-form tokens first (class 0) ascending by address
value with CIDR flagged before a single at the same address, IPv6-form
tokens next (class 1) likewise, FQDNs last (class 2) by character order;
the raw characters are appended as a final deterministic tie-break. -/

/-- Numeric value of a dotted-quad token (fold of its octets base 256). -/
def ipv4Val (t : List Char) : Nat :=
  (splitOnChar '.' t).foldl (fun n g => n * 256 + digitsToNat g) 0

/-- Numeric value of a colon-separated token (fold of its groups base 2^16). -/
def ipv6Val (t : List Char) : Nat :=
  (splitOnChar ':' t).foldl (fun n g => n * 65536 + hexToNat g) 0

/-- Sort key of a token. -/
def keyOf (t : List Char) : List Nat :=
  (if isIPv4 t then [0, ipv4Val t, 1]
   else if isIPv4Cidr t then
     match splitOnChar '/' t with
     | [a, m] => [0, ipv4Val a, 0, digitsToNat m]
     | _ => [0]
   else if isIPv4Range t then
     match splitOnChar '-' t with
     | [a, b] => [0, ipv4Val a, 2, ipv4Val b]
     | _ => [0]
   else if isIPv6 t then [1, ipv6Val t, 1]
   else if isIPv6Cidr t then
     match splitOnChar '/' t with
     | [a, m] => [1, ipv6Val a, 0, digitsToNat m]
     | _ => [1]
   else [2]) ++ t.map Char.toNat

/-- Lexicographic comparison of `List Nat` keys. -/
def leK : List Nat → List Nat → Bool
  | [], _ => true
  | _ :: _, [] => false
  | a :: as, b :: bs => a < b || (a == b && leK as bs)

def leK_total : ∀ x y : List Nat, leK x y = true ∨ leK y x = true := by
  intro x
  induction x with
  | nil => intro y; exact Or.inl rfl
  | cons a as ih =>
    intro y
    cases y with
    | nil => exact Or.inr rfl
    | cons b bs =>
      rcases Nat.lt_trichotomy a b with h | h | h
      · left; simp [leK, h]
      · subst h
        rcases ih bs with h2 | h2
        · left; simp [leK, h2]
        · right; simp [leK, h2]
      · right; simp [leK, h]

def leK_trans :
    ∀ x y z : List Nat, leK x y = true → leK y z = true → leK x z = true := by
  intro x
  induction x with
  | nil => intro y z _ _; rfl
  | cons a as ih =>
    intro y z hxy hyz
    cases y with
    | nil => simp [leK] at hxy
    | cons b bs =>
      cases z with
      | nil => simp [leK] at hyz
      | cons c cs =>
        simp only [leK, Bool.or_eq_true, Bool.and_eq_true, decide_eq_true_eq,
          beq_iff_eq] at hxy hyz ⊢
        rcases hxy with h1 | ⟨h1, h1'⟩
        · rcases hyz with h2 | ⟨h2, _⟩
          · exact Or.inl (Nat.lt_trans h1 h2)
          · exact Or.inl (h2 ▸ h1)
        · subst h1
          rcases hyz with h2 | ⟨h2, h2'⟩
          · exact Or.inl h2
          · subst h2
            exact Or.inr ⟨rfl, ih bs cs h1' h2'⟩

/-- The canonical token order: key comparison. -/
def tokLE (a b : List Char) : Prop := leK (keyOf a) (keyOf b) = true

instance : DecidableRel tokLE :=
  fun a b => inferInstanceAs (Decidable (leK (keyOf a) (keyOf b) = true))

instance : IsTotal (List Char) tokLE := ⟨fun a b => leK_total (keyOf a) (keyOf b)⟩

instance : IsTrans (List Char) tokLE := ⟨fun a b c => leK_trans (keyOf a) (keyOf b) (keyOf c)⟩

/-- Sort a token list by the canonical order. -/
def sortTokens (L : List (List Char)) : List (List Char) := L.insertionSort tokLE

/-! ## The target extractor

Modelled from the spec (§4.1): `extract_targets.TargetExtractor`, the
external dependency `models.py` imports, with the arguments used at the
two call sites in `Site.clean` (`private_ips_allowed=True`, so no
private-range rejection; `sort_targets=True`, so the canonical order is
applied).  Its `targets_dict` carries the collected invalid tokens and
the canonical space-joined string handed to the scan binary (`as_nmap`). -/

structure TargetsDict where
  invalid_targets : List (List Char)
  as_nmap : String
deriving DecidableEq

/-- Modelled from the spec: `extract_targets.TargetExtractor` (§4.1).
Tokenizes on whitespace, collects ALL invalid tokens (never fail-fast),
and canonicalizes the valid ones by deduplication, total-order sort and
space-joining. -/
def targetExtractor (targets_string : String) : TargetsDict :=
  { invalid_targets := (tokenize targets_string).filter (fun t => !isValidToken t)
    as_nmap := (joinTokens (sortTokens ((tokenize targets_string).filter isValidToken).dedup)).asString }

/-! ## Data model (from `master/django_scantron/models.py`) -/

/-- Character class of the source regex `^[a-zA-Z0-9/()_\- ]*$` used by the
name validators of `Agent.scan_agent`, `Site.site_name`,
`ScheduledScan.site_name` and `ScheduledScan.scan_agent`. -/
def nameCharOK (c : Char) : Bool :=
  c.isAlphanum || c == '/' || c == '(' || c == ')' || c == '_' || c == '-' || c == ' '

/-- Character class of the source regex `^[a-zA-Z0-9/\.\: ]*$` used by the
validators of the `targets` and `excluded_targets` fields ("Characters to
support IPv4, IPv6, and FQDNs only.  Space delimited."). -/
def targetsFieldCharOK (c : Char) : Bool :=
  c.isAlphanum || c == '/' || c == '.' || c == ':' || c == ' '

/-- The `targets` / `excluded_targets` character-class validator check. -/
def targetsRegexOK (s : String) : Bool := s.data.all targetsFieldCharOK

/-- `Agent` model (models.py lines 28–51). `last_checkin` is nullable. -/
structure Agent where
  id : Nat
  scan_agent : String
  description : String
  api_token : String
  last_checkin : Option Nat
deriving DecidableEq

/-- Declared validators of `Agent`: name regex and `max_length` bounds,
`api_token` at most 40 characters. -/
def agentValid (a : Agent) : Bool :=
  a.scan_agent.length ≤ 255 && a.scan_agent.data.all nameCharOK &&
  a.description.length ≤ 255 && a.api_token.length ≤ 40 && !(a.api_token == "")

/-- `ScanCommand` model (models.py lines 54–73). `scan_command` is a
`TextField`: unlike `CharField`s it carries no `max_length` bound. -/
structure ScanCommand where
  id : Nat
  scan_binary : String
  scan_command_name : String
  scan_command : String
deriving DecidableEq

/-- Declared validators of `ScanCommand`: binary is one of the
`SCAN_BINARY` choices within 7 chars, name within 255 chars; the raw
command text is unconstrained. -/
def scanCommandValid (c : ScanCommand) : Bool :=
  (c.scan_binary == "masscan" || c.scan_binary == "nmap") &&
  c.scan_binary.length ≤ 7 && c.scan_command_name.length ≤ 255

/-- `Site` model (models.py lines 76–149): foreign keys to `ScanCommand`
and `Agent` are held by id. -/
structure Site where
  id : Nat
  site_name : String
  description : String
  targets : String
  excluded_targets : String
  scan_command_id : Nat
  scan_agent_id : Nat
deriving DecidableEq

/-- The two `ValidationError` kinds `Site.clean` can raise. -/
inductive CleanError where
  | invalidTargets (tokens : List (List Char))
  | invalidExcludedTargets (tokens : List (List Char))
deriving DecidableEq

/-- Embedding of `Site.clean` (models.py lines 118–143): run the target
extractor over `targets`; a nonempty invalid list raises a
`ValidationError` listing all invalid targets; otherwise `self.targets`
is replaced by the canonical string and the same is repeated for
`excluded_targets`.  The in-place mutation of `self` is modelled by
returning the updated record on success. -/
def Site.clean (s : Site) : Except CleanError Site :=
  let d := targetExtractor s.targets
  if d.invalid_targets ≠ [] then Except.error (CleanError.invalidTargets d.invalid_targets)
  else
    let s1 : Site := { s with targets := d.as_nmap }
    let d2 := targetExtractor s1.excluded_targets
    if d2.invalid_targets ≠ [] then
      Except.error (CleanError.invalidExcludedTargets d2.invalid_targets)
    else Except.ok { s1 with excluded_targets := d2.as_nmap }

/-- Modelled from the spec (§4.2): a recurrence definition, at
day-granularity with the repeat frequency expressed as an interval in
days and explicit exception dates; `includeDtstart` mirrors
django-recurrence's `include_dtstart` field option (whether the initial
`dtstart` is emitted as an occurrence in addition to rule-generated
dates). -/
structure Recurrence where
  dtstart : Nat
  includeDtstart : Bool
  intervalDays : Nat
  exdates : List Nat
deriving DecidableEq

/-- `Scan` model (models.py lines 152–175). -/
structure Scan where
  id : Nat
  site_id : Nat
  scan_name : String
  start_time : Nat
  recurrences : Recurrence
deriving DecidableEq

/-- The field declaration `recurrences = RecurrenceField(include_dtstart=False)`
(models.py line 159): recurrences stored on a `Scan` never emit `dtstart`
as an extra occurrence. -/
def scanRecurrencesFieldOK (s : Scan) : Bool := s.recurrences.includeDtstart == false

/-- Modelled from the spec (§4.2 Recurrence Evaluator): the rule-generated
dates in `[hs, he)` — on or after `dtstart`, on the repeat grid, not an
exception date — in ascending order with no duplicates. -/
def ruleOccurrences (rec : Recurrence) (hs he : Nat) : List Nat :=
  ((List.range (he - hs)).map (· + hs)).filter (fun d =>
    rec.dtstart ≤ d && (d - rec.dtstart) % (max 1 rec.intervalDays) == 0 &&
    !rec.exdates.contains d)

/-- Modelled from the spec: the occurrence set of a recurrence over a
horizon; when `includeDtstart` is set, `dtstart` is emitted in addition
to the rule-generated dates. -/
def occurrences (rec : Recurrence) (hs he : Nat) : List Nat :=
  (if rec.includeDtstart && (hs ≤ rec.dtstart && rec.dtstart < he) then [rec.dtstart] else []) ++
  ruleOccurrences rec hs he

/-- `ScheduledScan` model (models.py lines 178–261): a flat record of
plain copied values — site, agent and command data are denormalized
fields, not foreign keys. -/
structure ScheduledScan where
  id : Nat
  site_name : String
  site_name_id : Nat
  scan_id : Nat
  start_time : Nat
  scan_agent : String
  scan_agent_id : Nat
  start_datetime : Nat
  scan_binary : String
  scan_command : String
  scan_command_id : Nat
  targets : String
  excluded_targets : String
  scan_status : String
  completed_time : Option Nat
  result_file_base_name : String
deriving DecidableEq

/-- The `SCAN_STATUS_CHOICES` of `ScheduledScan`. -/
def scanStatusChoices : List String := ["pending", "started", "completed", "error"]

/-- Declared validators of `ScheduledScan`: name regexes, `max_length`
bounds (`scan_command` capped at 1024), `MinValueValidator(1)` ids,
status among the four choices. -/
def scheduledScanValid (r : ScheduledScan) : Bool :=
  r.site_name.length ≤ 255 && r.site_name.data.all nameCharOK &&
  1 ≤ r.site_name_id && 1 ≤ r.scan_id &&
  r.scan_agent.length ≤ 255 && r.scan_agent.data.all nameCharOK &&
  1 ≤ r.scan_agent_id &&
  r.scan_binary.length ≤ 7 &&
  r.scan_command.length ≤ 1024 &&
  1 ≤ r.scan_command_id &&
  r.targets.length ≤ 1048576 && targetsRegexOK r.targets &&
  r.excluded_targets.length ≤ 1048576 && targetsRegexOK r.excluded_targets &&
  r.scan_status.length ≤ 9 && scanStatusChoices.contains r.scan_status &&
  r.result_file_base_name.length ≤ 255

/-! ## The shared store and the scheduling core -/

/-- The persistent store of entities (spec §1 treats it as an external
collaborator offering CRUD; here it is an explicit record). -/
structure Store where
  agents : List Agent
  scanCommands : List ScanCommand
  sites : List Site
  scans : List Scan
  scheduledScans : List ScheduledScan
deriving DecidableEq

/-- Modelled from the spec (§4.3 Schedule Materializer, §3): one
`ScheduledScan` snapshot for an occurrence, copying the Site's canonical
targets and excluded targets, the Site's Agent and ScanCommand (binary
and literal command text) as they stand at materialization time; initial
status `pending`, completion fields unset. -/
def mkScheduledScan (nextId : Nat) (site : Site) (agent : Agent) (cmd : ScanCommand)
    (scan : Scan) (dt : Nat) : ScheduledScan :=
  { id := nextId
    site_name := site.site_name
    site_name_id := site.id
    scan_id := scan.id
    start_time := scan.start_time
    scan_agent := agent.scan_agent
    scan_agent_id := agent.id
    start_datetime := dt
    scan_binary := cmd.scan_binary
    scan_command := cmd.scan_command
    scan_command_id := cmd.id
    targets := site.targets
    excluded_targets := site.excluded_targets
    scan_status := "pending"
    completed_time := none
    result_file_base_name := "" }

/-- Modelled from the spec (§4.3): insert the snapshot for one occurrence
date unless a row with the same (scan id, start_datetime) deduplication
key already exists; the occurrence date is combined with the scan's start
time-of-day (minutes) into the concrete start date-time. -/
def materializeStep (site : Site) (agent : Agent) (cmd : ScanCommand) (scan : Scan)
    (rows : List ScheduledScan) (d : Nat) : List ScheduledScan :=
  if rows.any (fun r => r.scan_id == scan.id && r.start_datetime == d * 1440 + scan.start_time)
  then rows
  else rows ++ [mkScheduledScan (rows.length + 1) site agent cmd scan (d * 1440 + scan.start_time)]

/-- Modelled from the spec (§4.3 Schedule Materializer, not part of the
visible repository slice): for each occurrence of the scan's recurrence
within the horizon, snapshot site/agent/command data into a new
`ScheduledScan`, skipping occurrence date-times already materialized. -/
def materialize (st : Store) (scanId : Nat) (hs he : Nat) : Store :=
  match st.scans.find? (fun sc => sc.id == scanId) with
  | none => st
  | some scan =>
  match st.sites.find? (fun si => si.id == scan.site_id) with
  | none => st
  | some site =>
  match st.scanCommands.find? (fun c => c.id == site.scan_command_id) with
  | none => st
  | some cmd =>
  match st.agents.find? (fun a => a.id == site.scan_agent_id) with
  | none => st
  | some agent =>
    let rows := (occurrences scan.recurrences hs he).foldl
      (materializeStep site agent cmd scan) st.scheduledScans
    { st with scheduledScans := rows }

/-- The deduplication invariant: at most one row per
(scan id, start_datetime) pair. -/
def dedupKeyInv (rows : List ScheduledScan) : Prop :=
  rows.Pairwise (fun a b => ¬(a.scan_id = b.scan_id ∧ a.start_datetime = b.start_datetime))

/-- An edit to one of the records a `ScheduledScan` was materialized from. -/
inductive EntityEdit where
  | editSite (i : Nat) (s : Site)
  | editScan (i : Nat) (s : Scan)
  | editScanCommand (i : Nat) (c : ScanCommand)
  | editAgent (i : Nat) (a : Agent)
deriving DecidableEq

/-- Apply an entity edit to the store: replace the record with the given id. -/
def applyEdit (st : Store) : EntityEdit → Store
  | EntityEdit.editSite i s =>
      { st with sites := st.sites.map (fun x => if x.id == i then s else x) }
  | EntityEdit.editScan i s =>
      { st with scans := st.scans.map (fun x => if x.id == i then s else x) }
  | EntityEdit.editScanCommand i c =>
      { st with scanCommands := st.scanCommands.map (fun x => if x.id == i then c else x) }
  | EntityEdit.editAgent i a =>
      { st with agents := st.agents.map (fun x => if x.id == i then a else x) }

/-- Outcome of a claim attempt (spec §5: succeed, excluded by a prior
claim, or not found — never blocking). -/
inductive ClaimResult where
  | claimed
  | alreadyStarted
  | notFound
deriving DecidableEq

/-- Modelled from the spec (§4.4 Claim, §5): the claim endpoint of the
Claim & Lifecycle Manager (outside the visible repository slice) as a
single atomic conditional update — status moves from `pending` to
`started` only if still `pending`; a claimant that finds the scan no
longer pending observes it already started (exclusion, not an error).
The whole function is one atomic step of the store, not a read-then-write
pair. -/
def claimScheduledScan (rows : List ScheduledScan) (i : Nat) :
    ClaimResult × List ScheduledScan :=
  if rows.any (fun r => r.id == i && r.scan_status == "pending") then
    (ClaimResult.claimed,
      rows.map (fun r =>
        if r.id == i && r.scan_status == "pending" then { r with scan_status := "started" }
        else r))
  else if rows.any (fun r => r.id == i) then (ClaimResult.alreadyStarted, rows)
  else (ClaimResult.notFound, rows)

/-- A user account of the authentication system (only the fields
`create_auth_token` reads). -/
structure AuthUser where
  username : String
  is_superuser : Bool
deriving DecidableEq

/-- The state touched by the `post_save` signal handler: the issued API
tokens (user name, key) and the `Agent` table. -/
structure AuthState where
  tokens : List (String × String)
  agents : List Agent
deriving DecidableEq

/-- Embedding of `create_auth_token` (models.py lines 15–25): on a
`post_save` signal with `created=True`, generate an API token for the
user, then create an `Agent` named after the user and holding that token
— only when the user is not a superuser.  The freshly drawn token key is
a parameter (`Token.objects.create` obtains it from the external token
generator); Django's string coercion of the `User` and `Token` instances
assigned to the `CharField`s is modelled by storing `username` and the
key. -/
def create_auth_token (user : AuthUser) (created : Bool) (key : String)
    (st : AuthState) : AuthState :=
  if created then
    let st1 : AuthState := { st with tokens := (user.username, key) :: st.tokens }
    if user.is_superuser = false then
      { st1 with agents :=
          { id := st1.agents.length + 1
            scan_agent := user.username
            description := ""
            api_token := key
            last_checkin := none } :: st1.agents }
    else st1
  else st

/-! ## Sample records used by the witnesses -/

/-- A concrete well-formed `ScheduledScan` row. -/
def sampleRow : ScheduledScan :=
  { id := 1
    site_name := "Main"
    site_name_id := 1
    scan_id := 1
    start_time := 540
    scan_agent := "agent1"
    scan_agent_id := 1
    start_datetime := 1000
    scan_binary := "nmap"
    scan_command := "-sV -p 1-65535"
    scan_command_id := 1
    targets := "10.0.0.1"
    excluded_targets := ""
    scan_status := "pending"
    completed_time := none
    result_file_base_name := "" }

/-- A concrete `Agent`. -/
def wAgent : Agent :=
  { id := 1, scan_agent := "agent1", description := "", api_token := "tok", last_checkin := none }

/-- A concrete `ScanCommand`. -/
def wCmd : ScanCommand :=
  { id := 1, scan_binary := "nmap", scan_command_name := "quick", scan_command := "-sV" }

/-- A concrete `Site`. -/
def wSite : Site :=
  { id := 1, site_name := "Main", description := "", targets := "10.0.0.1",
    excluded_targets := "", scan_command_id := 1, scan_agent_id := 1 }

/-- A concrete `Scan` with a daily recurrence (dtstart not re-emitted, as
the `RecurrenceField(include_dtstart=False)` declaration prescribes). -/
def wScan : Scan :=
  { id := 1, site_id := 1, scan_name := "daily", start_time := 540,
    recurrences := { dtstart := 0, includeDtstart := false, intervalDays := 1, exdates := [] } }

/-- A concrete store holding one of each entity and no scheduled scans yet. -/
def wStore : Store :=
  { agents := [wAgent], scanCommands := [wCmd], sites := [wSite], scans := [wScan],
    scheduledScans := [] }

/-- A concrete Site with unsorted but valid targets. -/
def c3Site : Site :=
  { id := 1, site_name := "Main", description := "", targets := "10.0.0.5 10.0.0.1",
    excluded_targets := "", scan_command_id := 1, scan_agent_id := 1 }

/-- `c3Site` after canonicalization. -/
def c3SiteCanon : Site :=
  { id := 1, site_name := "Main", description := "", targets := "10.0.0.1 10.0.0.5",
    excluded_targets := "", scan_command_id := 1, scan_agent_id := 1 }

/-- A concrete Site with two invalid tokens and one valid one. -/
def c5Site : Site :=
  { id := 1, site_name := "Main", description := "",
    targets := "999.1.1.1 bad..token good.example.com",
    excluded_targets := "", scan_command_id := 1, scan_agent_id := 1 }

/-- A concrete Site invalid in both fields. -/
def c9Site : Site :=
  { id := 1, site_name := "Main", description := "", targets := "999.1.1.1",
    excluded_targets := "777.1.1.1", scan_command_id := 1, scan_agent_id := 1 }

/-- A ScanCommand whose command text has 1025 characters. -/
def c10Cmd : ScanCommand :=
  { id := 2, scan_binary := "nmap", scan_command_name := "big",
    scan_command := List.asString (List.replicate 1025 'a') }

/-! ## Theorems -/

theorem splitOnChar_ne_nil (sep : Char) (cs : List Char) : splitOnChar sep cs ≠ [] := by
  cases cs with
  | nil => simp [splitOnChar]
  | cons c cs =>
    simp only [splitOnChar]
    by_cases h : c = sep
    · simp [h]
    · simp only [h, if_false]
      cases hr : splitOnChar sep cs with
      | nil => simp [consGroup]
      | cons g gs => simp [consGroup]

/-- Every character of the input is either the separator or belongs to one
of the groups of the split. -/
theorem mem_splitOnChar (sep : Char) {c : Char} :
    ∀ {cs : List Char}, c ∈ cs → c = sep ∨ ∃ g, g ∈ splitOnChar sep cs ∧ c ∈ g := by
  intro cs
  induction cs with
  | nil => intro h; cases h
  | cons x cs ih =>
    intro hmem
    rcases List.mem_cons.mp hmem with hx | hcs
    · subst hx
      by_cases hxs : c = sep
      · exact Or.inl hxs
      · refine Or.inr ?_
        simp only [splitOnChar, hxs, if_false]
        cases hr : splitOnChar sep cs with
        | nil => exact absurd hr (splitOnChar_ne_nil sep cs)
        | cons g gs =>
          exact ⟨c :: g, by simp [consGroup], by simp⟩
    · rcases ih hcs with hsep | ⟨g, hg, hcg⟩
      · exact Or.inl hsep
      · refine Or.inr ?_
        simp only [splitOnChar]
        by_cases hxs : x = sep
        · exact ⟨g, by simp [hxs, hg], hcg⟩
        · simp only [hxs, if_false]
          cases hr : splitOnChar sep cs with
          | nil => exact absurd hr (splitOnChar_ne_nil sep cs)
          | cons g0 gs =>
            rw [hr] at hg
            rcases List.mem_cons.mp hg with hgg | hgs
            · subst hgg
              exact ⟨x :: g, by simp [consGroup], by simp [hcg]⟩
            · exact ⟨g, by simp [consGroup, hgs], hcg⟩

/-- Splitting a list that does not contain the separator yields a single group. -/
theorem splitOnChar_of_not_mem {sep : Char} :
    ∀ {cs : List Char}, sep ∉ cs → splitOnChar sep cs = [cs] := by
  intro cs
  induction cs with
  | nil => intro _; rfl
  | cons x cs ih =>
    intro h
    have hx : x ≠ sep := fun he => h (he ▸ List.mem_cons_self x cs)
    have hcs : sep ∉ cs := fun hm => h (List.mem_cons_of_mem x hm)
    simp only [splitOnChar, hx, if_false, ih hcs, consGroup]

/-- Splitting `xs ++ sep :: ys` where `xs` is separator-free peels off `xs`
as the first group. -/
theorem splitOnChar_append {sep : Char} :
    ∀ {xs : List Char} (ys : List Char), sep ∉ xs →
      splitOnChar sep (xs ++ sep :: ys) = xs :: splitOnChar sep ys := by
  intro xs
  induction xs with
  | nil => intro ys _; simp [splitOnChar]
  | cons x xs ih =>
    intro ys h
    have hx : x ≠ sep := fun he => h (he ▸ List.mem_cons_self x xs)
    have hxs : sep ∉ xs := fun hm => h (List.mem_cons_of_mem x hm)
    simp only [List.cons_append, splitOnChar, hx, if_false]
    rw [show xs.append (sep :: ys) = xs ++ sep :: ys from rfl, ih ys hxs]
    rfl

/-- Splitting a space-joined list of nonempty space-free tokens recovers the tokens. -/
theorem tokenize_joinTokens :
    ∀ {L : List (List Char)}, (∀ t ∈ L, t ≠ [] ∧ ' ' ∉ t) →
      (splitOnChar ' ' (joinTokens L)).filter (fun g => !g.isEmpty) = L := by
  intro L
  induction L with
  | nil => intro _; simp [joinTokens, splitOnChar]
  | cons t ts ih =>
    intro h
    have ht := h t (List.mem_cons_self t ts)
    cases ts with
    | nil =>
      have : splitOnChar ' ' (joinTokens [t]) = [t] :=
        splitOnChar_of_not_mem ht.2
      simp [this, List.filter, List.isEmpty_iff, ht.1]
    | cons t2 ts2 =>
      have hjoin : joinTokens (t :: t2 :: ts2) = t ++ ' ' :: joinTokens (t2 :: ts2) := rfl
      have hsplit := splitOnChar_append (joinTokens (t2 :: ts2)) ht.2
      have hrest := ih (fun u hu => h u (List.mem_cons_of_mem t hu))
      rw [hjoin, hsplit]
      simp only [List.filter]
      have : (!t.isEmpty) = true := by
        cases t with
        | nil => exact absurd rfl ht.1
        | cons c cs => rfl
      rw [this, hrest]

example : isValidToken "10.0.0.1".data = true := by decide

example : isValidToken "10.0.0.0/24".data = true := by decide

example : isValidToken "10.0.0.1-10.0.0.5".data = true := by decide

example : isValidToken "fe80::1".data = true := by decide

example : isValidToken "2001:db8::/32".data = true := by decide

example : isValidToken "scan-host.example.com".data = true := by decide

example : isValidToken "999.1.1.1".data = false := by decide

example : isValidToken "10.0.0.256".data = false := by decide

example : isValidToken "10.0.0.0/33".data = false := by decide

theorem tokenCharOK_of_digit {c : Char} (h : c.isDigit = true) : tokenCharOK c = true := by
  simp [tokenCharOK, Char.isAlphanum, h]

theorem tokenCharOK_of_hex {c : Char} (h : isHexChar c = true) : tokenCharOK c = true := by
  simp only [isHexChar, Bool.or_eq_true, Bool.and_eq_true] at h
  rcases h with h | ⟨h, _⟩
  · exact tokenCharOK_of_digit h
  · simp [tokenCharOK, Char.isAlphanum, h]

theorem chars_of_isIPv4 {t : List Char} (h : isIPv4 t = true) :
    ∀ c ∈ t, c.isDigit = true ∨ c = '.' := by
  intro c hc
  rcases mem_splitOnChar '.' hc with h1 | ⟨g, hg, hcg⟩
  · exact Or.inr h1
  · left
    simp only [isIPv4, Bool.and_eq_true, beq_iff_eq, List.all_eq_true] at h
    have hoct := h.2 g hg
    simp only [isIPv4Octet, Bool.and_eq_true, List.all_eq_true] at hoct
    exact hoct.1.2 c hcg

theorem chars_of_isIPv4Cidr {t : List Char} (h : isIPv4Cidr t = true) :
    ∀ c ∈ t, c.isDigit = true ∨ c = '.' ∨ c = '/' := by
  intro c hc
  rcases hsp : splitOnChar '/' t with _ | ⟨a, _ | ⟨m, _ | ⟨x, rest⟩⟩⟩ <;>
    simp only [isIPv4Cidr, hsp, Bool.and_eq_true, Bool.false_eq_true] at h
  rcases mem_splitOnChar '/' hc with h1 | ⟨g, hg, hcg⟩
  · exact Or.inr (Or.inr h1)
  · rw [hsp] at hg
    rcases List.mem_cons.mp hg with hga | hgm
    · subst hga
      rcases chars_of_isIPv4 h.1.1.1 c hcg with hd | hd
      · exact Or.inl hd
      · exact Or.inr (Or.inl hd)
    · have hgm' : g = m := by simpa using hgm
      subst hgm'
      have := h.1.2
      simp only [List.all_eq_true] at this
      exact Or.inl (this c hcg)

theorem chars_of_isIPv4Range {t : List Char} (h : isIPv4Range t = true) :
    ∀ c ∈ t, c.isDigit = true ∨ c = '.' ∨ c = '-' := by
  intro c hc
  rcases hsp : splitOnChar '-' t with _ | ⟨a, _ | ⟨b, _ | ⟨x, rest⟩⟩⟩ <;>
    simp only [isIPv4Range, hsp, Bool.and_eq_true, Bool.false_eq_true] at h
  rcases mem_splitOnChar '-' hc with h1 | ⟨g, hg, hcg⟩
  · exact Or.inr (Or.inr h1)
  · rw [hsp] at hg
    rcases List.mem_cons.mp hg with hga | hgb
    · subst hga
      rcases chars_of_isIPv4 h.1 c hcg with hd | hd
      · exact Or.inl hd
      · exact Or.inr (Or.inl hd)
    · have hgb' : g = b := by simpa using hgb
      subst hgb'
      rcases chars_of_isIPv4 h.2 c hcg with hd | hd
      · exact Or.inl hd
      · exact Or.inr (Or.inl hd)

theorem chars_of_isIPv6 {t : List Char} (h : isIPv6 t = true) :
    ∀ c ∈ t, isHexChar c = true ∨ c = ':' := by
  intro c hc
  rcases mem_splitOnChar ':' hc with h1 | ⟨g, hg, hcg⟩
  · exact Or.inr h1
  · left
    simp only [isIPv6, Bool.and_eq_true, List.all_eq_true] at h
    have := h.2 g hg
    simp only [Bool.and_eq_true, List.all_eq_true] at this
    exact this.2 c hcg

theorem chars_of_isIPv6Cidr {t : List Char} (h : isIPv6Cidr t = true) :
    ∀ c ∈ t, isHexChar c = true ∨ c = ':' ∨ c = '/' := by
  intro c hc
  rcases hsp : splitOnChar '/' t with _ | ⟨a, _ | ⟨m, _ | ⟨x, rest⟩⟩⟩ <;>
    simp only [isIPv6Cidr, hsp, Bool.and_eq_true, Bool.false_eq_true] at h
  rcases mem_splitOnChar '/' hc with h1 | ⟨g, hg, hcg⟩
  · exact Or.inr (Or.inr h1)
  · rw [hsp] at hg
    rcases List.mem_cons.mp hg with hga | hgm
    · subst hga
      rcases chars_of_isIPv6 h.1.1.1 c hcg with hd | hd
      · exact Or.inl hd
      · exact Or.inr (Or.inl hd)
    · have hgm' : g = m := by simpa using hgm
      subst hgm'
      have := h.1.2
      simp only [List.all_eq_true] at this
      have hd := this c hcg
      left
      simp [isHexChar, hd]

theorem chars_of_isFQDN {t : List Char} (h : isFQDN t = true) :
    ∀ c ∈ t, (c.isAlphanum || c == '-') = true ∨ c = '.' := by
  intro c hc
  rcases mem_splitOnChar '.' hc with h1 | ⟨g, hg, hcg⟩
  · exact Or.inr h1
  · left
    simp only [isFQDN, Bool.and_eq_true, List.all_eq_true] at h
    have hlab := h.1.2 g hg
    simp only [labelOk, Bool.and_eq_true, List.all_eq_true] at hlab
    exact hlab.1.1.1 c hcg

/-- Every character of a valid token is a letter, digit, `/`, `.`, `:`, or `-`. -/
theorem validToken_chars {t : List Char} (h : isValidToken t = true) :
    ∀ c ∈ t, tokenCharOK c = true := by
  simp only [isValidToken, Bool.or_eq_true] at h
  intro c hc
  rcases h with ((((h | h) | h) | h) | h) | h
  · rcases chars_of_isIPv4 h c hc with hd | hd
    · exact tokenCharOK_of_digit hd
    · simp [tokenCharOK, hd]
  · rcases chars_of_isIPv4Cidr h c hc with hd | hd | hd
    · exact tokenCharOK_of_digit hd
    · simp [tokenCharOK, hd]
    · simp [tokenCharOK, hd]
  · rcases chars_of_isIPv4Range h c hc with hd | hd | hd
    · exact tokenCharOK_of_digit hd
    · simp [tokenCharOK, hd]
    · simp [tokenCharOK, hd]
  · rcases chars_of_isIPv6 h c hc with hd | hd
    · exact tokenCharOK_of_hex hd
    · simp [tokenCharOK, hd]
  · rcases chars_of_isIPv6Cidr h c hc with hd | hd | hd
    · exact tokenCharOK_of_hex hd
    · simp [tokenCharOK, hd]
    · simp [tokenCharOK, hd]
  · rcases chars_of_isFQDN h c hc with hd | hd
    · simp only [Bool.or_eq_true, beq_iff_eq] at hd
      rcases hd with hd | hd
      · simp [tokenCharOK, hd]
      · simp [tokenCharOK, hd]
    · simp [tokenCharOK, hd]

theorem validToken_nonempty {t : List Char} (h : isValidToken t = true) : t ≠ [] := by
  intro he
  subst he
  simp [show isValidToken [] = false from by decide] at h

theorem validToken_no_space {t : List Char} (h : isValidToken t = true) : ' ' ∉ t :=
  fun hsp => absurd (validToken_chars h ' ' hsp) (by decide)

theorem mem_sortTokens {L : List (List Char)} {t : List Char} :
    t ∈ sortTokens L ↔ t ∈ L := List.mem_insertionSort tokLE

/-- Every token of the canonical output is one of the valid input tokens. -/
theorem canonical_tokens_valid (x : String) :
    ∀ t ∈ sortTokens ((tokenize x).filter isValidToken).dedup, isValidToken t = true := by
  intro t ht
  have h1 : t ∈ ((tokenize x).filter isValidToken).dedup := mem_sortTokens.mp ht
  have h2 : t ∈ (tokenize x).filter isValidToken := List.mem_dedup.mp h1
  exact (List.mem_filter.mp h2).2

/-- Re-tokenizing the canonical string recovers exactly the sorted
deduplicated valid tokens. -/
theorem tokenize_canonical (x : String) :
    tokenize (targetExtractor x).as_nmap
      = sortTokens ((tokenize x).filter isValidToken).dedup := by
  have hvalid := canonical_tokens_valid x
  have hprop : ∀ t ∈ sortTokens ((tokenize x).filter isValidToken).dedup,
      t ≠ [] ∧ ' ' ∉ t := fun t ht =>
    ⟨validToken_nonempty (hvalid t ht), validToken_no_space (hvalid t ht)⟩
  show (splitOnChar ' ' (List.asString _).data).filter _ = _
  rw [show ∀ l : List Char, (List.asString l).data = l from fun l => rfl]
  exact tokenize_joinTokens hprop

/-- Re-running the extractor on its own canonical output is the identity:
no invalid tokens, same canonical string. -/
theorem targetExtractor_fixed (x : String) :
    targetExtractor (targetExtractor x).as_nmap
      = { invalid_targets := [], as_nmap := (targetExtractor x).as_nmap } := by
  have hvalid := canonical_tokens_valid x
  have htok := tokenize_canonical x
  have hnodup : (sortTokens ((tokenize x).filter isValidToken).dedup).Nodup :=
    (List.perm_insertionSort tokLE _).nodup_iff.mpr
      (List.nodup_dedup ((tokenize x).filter isValidToken))
  have hsorted : List.Sorted tokLE (sortTokens ((tokenize x).filter isValidToken).dedup) :=
    List.sorted_insertionSort tokLE _
  have hstep : targetExtractor (targetExtractor x).as_nmap
      = { invalid_targets :=
            (tokenize (targetExtractor x).as_nmap).filter (fun t => !isValidToken t),
          as_nmap :=
            (joinTokens (sortTokens
              ((tokenize (targetExtractor x).as_nmap).filter isValidToken).dedup)).asString } := rfl
  rw [hstep, htok]
  have hfilterNil : (sortTokens ((tokenize x).filter isValidToken).dedup).filter
      (fun t => !isValidToken t) = [] := by
    rw [List.filter_eq_nil_iff]
    intro t ht
    simp [hvalid t ht]
  have hfilterSelf : (sortTokens ((tokenize x).filter isValidToken).dedup).filter isValidToken
      = sortTokens ((tokenize x).filter isValidToken).dedup :=
    List.filter_eq_self.mpr hvalid
  rw [hfilterNil, hfilterSelf, List.dedup_eq_self.mpr hnodup, TargetsDict.mk.injEq]
  exact ⟨rfl, congrArg (fun l => (joinTokens l).asString) hsorted.insertionSort_eq⟩

theorem mem_foldl_materializeStep (site : Site) (agent : Agent) (cmd : ScanCommand)
    (scan : Scan) :
    ∀ (ds : List Nat) (rows : List ScheduledScan) (r : ScheduledScan), r ∈ rows →
      r ∈ ds.foldl (materializeStep site agent cmd scan) rows := by
  intro ds
  induction ds with
  | nil => intro rows r hr; simpa using hr
  | cons d ds ih =>
    intro rows r hr
    have hstep : r ∈ materializeStep site agent cmd scan rows d := by
      unfold materializeStep
      by_cases h : rows.any (fun q =>
          q.scan_id == scan.id && q.start_datetime == d * 1440 + scan.start_time) = true
      · simp [h, hr]
      · simp only [Bool.not_eq_true] at h
        simp [h, hr]
    simpa using ih (materializeStep site agent cmd scan rows d) r hstep

theorem key_covered_foldl (site : Site) (agent : Agent) (cmd : ScanCommand) (scan : Scan) :
    ∀ (ds : List Nat) (rows : List ScheduledScan) (d : Nat), d ∈ ds →
      ∃ r ∈ ds.foldl (materializeStep site agent cmd scan) rows,
        r.scan_id = scan.id ∧ r.start_datetime = d * 1440 + scan.start_time := by
  intro ds
  induction ds with
  | nil => intro rows d h; cases h
  | cons d0 ds ih =>
    intro rows d hmem
    rcases List.mem_cons.mp hmem with h | h
    · subst h
      have hstep : ∃ r ∈ materializeStep site agent cmd scan rows d,
          r.scan_id = scan.id ∧ r.start_datetime = d * 1440 + scan.start_time := by
        unfold materializeStep
        by_cases hany : rows.any (fun q =>
            q.scan_id == scan.id && q.start_datetime == d * 1440 + scan.start_time) = true
        · rcases List.any_eq_true.mp hany with ⟨r, hr, hkey⟩
          simp only [Bool.and_eq_true, beq_iff_eq] at hkey
          exact ⟨r, by simp [hany, hr], hkey⟩
        · simp only [Bool.not_eq_true] at hany
          exact ⟨mkScheduledScan (rows.length + 1) site agent cmd scan
              (d * 1440 + scan.start_time), by simp [hany], rfl, rfl⟩
      rcases hstep with ⟨r, hrmem, hkey⟩
      exact ⟨r, by simpa using
        mem_foldl_materializeStep site agent cmd scan ds _ r hrmem, hkey⟩
    · simpa using ih (materializeStep site agent cmd scan rows d0) d h

theorem foldl_materializeStep_noop (site : Site) (agent : Agent) (cmd : ScanCommand)
    (scan : Scan) :
    ∀ (ds : List Nat) (rows : List ScheduledScan),
      (∀ d ∈ ds, ∃ r ∈ rows,
        r.scan_id = scan.id ∧ r.start_datetime = d * 1440 + scan.start_time) →
      ds.foldl (materializeStep site agent cmd scan) rows = rows := by
  intro ds
  induction ds with
  | nil => intro rows _; rfl
  | cons d ds ih =>
    intro rows h
    have hany : rows.any (fun q =>
        q.scan_id == scan.id && q.start_datetime == d * 1440 + scan.start_time) = true := by
      rcases h d (List.mem_cons_self d ds) with ⟨r, hr, h1, h2⟩
      exact List.any_eq_true.mpr ⟨r, hr, by simp [h1, h2]⟩
    have hstep : materializeStep site agent cmd scan rows d = rows := by
      unfold materializeStep
      simp [hany]
    rw [List.foldl_cons, hstep]
    exact ih rows (fun e he => h e (List.mem_cons_of_mem d he))

theorem dedupKeyInv_foldl (site : Site) (agent : Agent) (cmd : ScanCommand) (scan : Scan) :
    ∀ (ds : List Nat) (rows : List ScheduledScan), dedupKeyInv rows →
      dedupKeyInv (ds.foldl (materializeStep site agent cmd scan) rows) := by
  intro ds
  induction ds with
  | nil => intro rows h; simpa using h
  | cons d ds ih =>
    intro rows h
    rw [List.foldl_cons]
    apply ih
    unfold materializeStep
    by_cases hany : rows.any (fun q =>
        q.scan_id == scan.id && q.start_datetime == d * 1440 + scan.start_time) = true
    · simpa [hany] using h
    · simp only [Bool.not_eq_true] at hany
      simp only [hany, Bool.false_eq_true, if_false]
      rw [dedupKeyInv, List.pairwise_append]
      refine ⟨h, List.pairwise_singleton _ _, ?_⟩
      intro a ha b hb
      simp only [List.mem_singleton] at hb
      subst hb
      intro hk
      have hfalse := List.any_eq_false.mp hany a ha
      simp only [Bool.and_eq_true, beq_iff_eq, not_and] at hfalse
      exact hfalse hk.1 hk.2

/-! ## The claims -/

/-- C1: for a pending ScheduledScan, of two claim requests (each a single
atomic conditional update from `pending` to `started`, never a
read-then-write pair) the first in any interleaving succeeds and the
second observes the scan already started — exclusion, not an error. -/
theorem claim_atomic_exclusive (rows : List ScheduledScan) (i : Nat) (r : ScheduledScan)
    (h1 : r ∈ rows) (h2 : r.id = i) (h3 : r.scan_status = "pending") :
    (claimScheduledScan rows i).1 = ClaimResult.claimed ∧
    (claimScheduledScan (claimScheduledScan rows i).2 i).1 = ClaimResult.alreadyStarted := by
  have hany : rows.any (fun q => q.id == i && q.scan_status == "pending") = true :=
    List.any_eq_true.mpr ⟨r, h1, by simp [h2, h3]⟩
  have hfst : claimScheduledScan rows i
      = (ClaimResult.claimed,
          rows.map (fun q =>
            if q.id == i && q.scan_status == "pending" then { q with scan_status := "started" }
            else q)) := by
    unfold claimScheduledScan
    simp [hany]
  have hnopending : (rows.map (fun q =>
      if q.id == i && q.scan_status == "pending" then { q with scan_status := "started" }
      else q)).any (fun q => q.id == i && q.scan_status == "pending") = false := by
    rw [List.any_eq_false]
    intro x hx
    rcases List.mem_map.mp hx with ⟨y, hy, hxy⟩
    by_cases hc : (y.id == i && y.scan_status == "pending") = true
    · rw [if_pos hc] at hxy
      subst hxy
      simp
    · simp only [Bool.not_eq_true] at hc
      rw [if_neg (by simp [hc])] at hxy
      subst hxy
      simp [hc]
  have hfound : (rows.map (fun q =>
      if q.id == i && q.scan_status == "pending" then { q with scan_status := "started" }
      else q)).any (fun q => q.id == i) = true := by
    refine List.any_eq_true.mpr ⟨{ r with scan_status := "started" }, ?_, by simp [h2]⟩
    refine List.mem_map.mpr ⟨r, h1, ?_⟩
    rw [if_pos (by simp [h2, h3])]
  have hsnd : claimScheduledScan (rows.map (fun q =>
      if q.id == i && q.scan_status == "pending" then { q with scan_status := "started" }
      else q)) i
      = (ClaimResult.alreadyStarted,
          rows.map (fun q =>
            if q.id == i && q.scan_status == "pending" then { q with scan_status := "started" }
            else q)) := by
    unfold claimScheduledScan
    rw [hnopending, hfound]
    simp
  refine ⟨by rw [hfst], ?_⟩
  rw [hfst, hsnd]

/-- Witness for C1 at a concrete pending row. -/
theorem claim_atomic_exclusive_witness :
    (claimScheduledScan [sampleRow] 1).1 = ClaimResult.claimed ∧
    (claimScheduledScan (claimScheduledScan [sampleRow] 1).2 1).1
      = ClaimResult.alreadyStarted :=
  claim_atomic_exclusive [sampleRow] 1 sampleRow (by simp) rfl rfl

/-- C6: applying any later edit of a Site, Scan, ScanCommand or Agent
record to the store leaves every materialized ScheduledScan row — the
frozen snapshot of site name/id, agent name/id, scan binary, command
text, targets, excluded targets and start date-time — bit-for-bit
unchanged: the rows are plain copies, not re-derived from live foreign
keys. -/
theorem snapshot_frozen (st : Store) (i hs he : Nat) (e : EntityEdit) :
    (applyEdit (materialize st i hs he) e).scheduledScans
      = (materialize st i hs he).scheduledScans := by
  cases e <;> rfl

/-- C7: with the `include_dtstart=False` configuration of
`Scan.recurrences`, the expanded occurrence set never contains the
initial dtstart twice. -/
theorem recurrence_no_double_dtstart (scan : Scan) (hs he : Nat)
    (h : scanRecurrencesFieldOK scan = true) :
    ((occurrences scan.recurrences hs he).count scan.recurrences.dtstart) ≤ 1 := by
  simp only [scanRecurrencesFieldOK, beq_iff_eq] at h
  have hnodup : (ruleOccurrences scan.recurrences hs he).Nodup := by
    apply List.Nodup.filter
    exact (List.nodup_range _).map (add_left_injective hs)
  have : occurrences scan.recurrences hs he = ruleOccurrences scan.recurrences hs he := by
    unfold occurrences
    rw [h]
    simp
  rw [this]
  exact List.nodup_iff_count_le_one.mp hnodup _

/-- Witness for C7 at a concrete daily scan over a three-week horizon. -/
theorem recurrence_no_double_dtstart_witness :
    scanRecurrencesFieldOK wScan = true ∧
    ((occurrences wScan.recurrences 0 21).count wScan.recurrences.dtstart) ≤ 1 :=
  ⟨by decide, recurrence_no_double_dtstart wScan 0 21 (by decide)⟩

/-- C8: on creation of a user account an API token is generated for it,
and an Agent named after the user holding that token is created exactly
when the user is not a superuser; administrative users get no Agent. -/
theorem create_auth_token_spec (user : AuthUser) (key : String) (st : AuthState) :
    (user.username, key) ∈ (create_auth_token user true key st).tokens ∧
    (user.is_superuser = false →
      ∃ a ∈ (create_auth_token user true key st).agents,
        a.scan_agent = user.username ∧ a.api_token = key) ∧
    (user.is_superuser = true →
      (create_auth_token user true key st).agents = st.agents) := by
  refine ⟨?_, ?_, ?_⟩
  · cases hsup : user.is_superuser <;> simp [create_auth_token, hsup]
  · intro hsup
    refine ⟨{ id := st.agents.length + 1, scan_agent := user.username, description := "", api_token := key, last_checkin := none }, ?_, rfl, rfl⟩
    simp [create_auth_token, hsup]
  · intro hsup
    simp [create_auth_token, hsup]

/-- Witness for C8 at a concrete non-superuser account. -/
theorem create_auth_token_spec_witness :
    ("alice", "tok123") ∈
      (create_auth_token ⟨"alice", false⟩ true "tok123" ⟨[], []⟩).tokens ∧
    ∃ a ∈ (create_auth_token ⟨"alice", false⟩ true "tok123" ⟨[], []⟩).agents,
      a.scan_agent = "alice" ∧ a.api_token = "tok123" :=
  ⟨(create_auth_token_spec ⟨"alice", false⟩ "tok123" ⟨[], []⟩).1,
   (create_auth_token_spec ⟨"alice", false⟩ "tok123" ⟨[], []⟩).2.1 rfl⟩

/-- C2: re-running materialize over an already (partially) materialized
horizon creates no duplicate ScheduledScan rows: the store keeps at most
one row per (scan id, start_datetime) deduplication key, and a second run
over the same scan and horizon returns the store unchanged. -/
theorem materialize_idempotent (st : Store) (i hs he : Nat)
    (h : dedupKeyInv st.scheduledScans) :
    dedupKeyInv (materialize st i hs he).scheduledScans ∧
    materialize (materialize st i hs he) i hs he = materialize st i hs he := by
  cases h1 : st.scans.find? (fun sc => sc.id == i) with
  | none =>
    have hm : materialize st i hs he = st := by simp only [materialize, h1]
    rw [hm]
    exact ⟨h, hm⟩
  | some scan =>
    cases h2 : st.sites.find? (fun si => si.id == scan.site_id) with
    | none =>
      have hm : materialize st i hs he = st := by simp only [materialize, h1, h2]
      rw [hm]
      exact ⟨h, hm⟩
    | some site =>
      cases h3 : st.scanCommands.find? (fun c => c.id == site.scan_command_id) with
      | none =>
        have hm : materialize st i hs he = st := by simp only [materialize, h1, h2, h3]
        rw [hm]
        exact ⟨h, hm⟩
      | some cmd =>
        cases h4 : st.agents.find? (fun a => a.id == site.scan_agent_id) with
        | none =>
          have hm : materialize st i hs he = st := by
            simp only [materialize, h1, h2, h3, h4]
          rw [hm]
          exact ⟨h, hm⟩
        | some agent =>
          have hm : materialize st i hs he
              = { st with scheduledScans := (occurrences scan.recurrences hs he).foldl (materializeStep site agent cmd scan) st.scheduledScans } := by
            simp only [materialize, h1, h2, h3, h4]
          have hcov : ∀ d ∈ occurrences scan.recurrences hs he,
              ∃ r ∈ (occurrences scan.recurrences hs he).foldl
                  (materializeStep site agent cmd scan) st.scheduledScans,
                r.scan_id = scan.id ∧ r.start_datetime = d * 1440 + scan.start_time :=
            fun d hd => key_covered_foldl site agent cmd scan _ st.scheduledScans d hd
          have hnoop := foldl_materializeStep_noop site agent cmd scan
            (occurrences scan.recurrences hs he) _ hcov
          constructor
          · rw [hm]
            exact dedupKeyInv_foldl site agent cmd scan _ st.scheduledScans h
          · rw [hm]
            simp only [materialize, h1, h2, h3, h4, hnoop]

/-- Witness for C2 at a concrete one-scan store and two-day horizon. -/
theorem materialize_idempotent_witness :
    dedupKeyInv (materialize wStore 1 0 2).scheduledScans ∧
    materialize (materialize wStore 1 0 2) 1 0 2 = materialize wStore 1 0 2 :=
  materialize_idempotent wStore 1 0 2 List.Pairwise.nil

/-! ### `Site.clean` characterization -/

theorem Site.clean_error_targets (s : Site)
    (hd : (targetExtractor s.targets).invalid_targets ≠ []) :
    Site.clean s
      = Except.error (CleanError.invalidTargets (targetExtractor s.targets).invalid_targets) := by
  simp only [Site.clean]
  rw [if_pos hd]

theorem Site.clean_error_excluded (s : Site)
    (hd : (targetExtractor s.targets).invalid_targets = [])
    (hd2 : (targetExtractor s.excluded_targets).invalid_targets ≠ []) :
    Site.clean s
      = Except.error
          (CleanError.invalidExcludedTargets (targetExtractor s.excluded_targets).invalid_targets) := by
  simp only [Site.clean]
  rw [if_neg (by simp [hd]), if_pos hd2]

theorem Site.clean_ok (s : Site)
    (hd : (targetExtractor s.targets).invalid_targets = [])
    (hd2 : (targetExtractor s.excluded_targets).invalid_targets = []) :
    Site.clean s
      = Except.ok { s with targets := (targetExtractor s.targets).as_nmap, excluded_targets := (targetExtractor s.excluded_targets).as_nmap } := by
  simp only [Site.clean]
  rw [if_neg (by simp [hd]), if_neg (by simp [hd2])]

/-- A Site whose two target fields are canonical extractor outputs cleans
to itself. -/
theorem Site.clean_canonical_fixed (x y : String) (i0 : Nat) (n0 d0 : String) (sc0 sa0 : Nat) :
    Site.clean ⟨i0, n0, d0, (targetExtractor x).as_nmap, (targetExtractor y).as_nmap, sc0, sa0⟩
      = Except.ok ⟨i0, n0, d0, (targetExtractor x).as_nmap, (targetExtractor y).as_nmap, sc0, sa0⟩ := by
  simp [Site.clean, targetExtractor_fixed x, targetExtractor_fixed y]

/-- C3: canonicalization is idempotent — re-extracting a canonical string
returns it unchanged, and re-running `Site.clean` on a Site already
canonicalized by a successful clean leaves both fields unchanged. -/
theorem canonicalize_idempotent (x : String) (s s' : Site)
    (h : Site.clean s = Except.ok s') :
    (targetExtractor (targetExtractor x).as_nmap).as_nmap = (targetExtractor x).as_nmap ∧
    Site.clean s' = Except.ok s' := by
  refine ⟨by rw [targetExtractor_fixed x], ?_⟩
  by_cases hd : (targetExtractor s.targets).invalid_targets = []
  · by_cases hd2 : (targetExtractor s.excluded_targets).invalid_targets = []
    · have hok := Site.clean_ok s hd hd2
      rw [h] at hok
      have hs' := Except.ok.inj hok
      rw [hs']
      exact Site.clean_canonical_fixed s.targets s.excluded_targets s.id s.site_name
        s.description s.scan_command_id s.scan_agent_id
    · rw [Site.clean_error_excluded s hd hd2] at h
      exact Except.noConfusion h
  · rw [Site.clean_error_targets s hd] at h
    exact Except.noConfusion h

/-- Witness for C3 at a concrete expression and Site. -/
theorem canonicalize_idempotent_witness :
    (targetExtractor (targetExtractor "10.0.0.5 10.0.0.1").as_nmap).as_nmap
      = (targetExtractor "10.0.0.5 10.0.0.1").as_nmap ∧
    Site.clean c3SiteCanon = Except.ok c3SiteCanon :=
  canonicalize_idempotent "10.0.0.5 10.0.0.1" c3Site c3SiteCanon rfl

/-- C5: Site-write validation does not stop at the first bad token: it
collects every invalid token of the targets expression, blocks the write
(an error instead of an updated Site) whenever that list is nonempty, and
the raised error carries the full invalid-token list. -/
theorem clean_collects_all_invalid (s : Site)
    (h : (targetExtractor s.targets).invalid_targets ≠ []) :
    ∃ l, Site.clean s = Except.error (CleanError.invalidTargets l) ∧
      l = (tokenize s.targets).filter (fun t => !isValidToken t) ∧
      ∀ t ∈ tokenize s.targets, isValidToken t = false → t ∈ l := by
  refine ⟨(targetExtractor s.targets).invalid_targets, Site.clean_error_targets s h, rfl, ?_⟩
  intro t ht hv
  exact List.mem_filter.mpr ⟨ht, by simp [hv]⟩

/-- Witness for C5 at a targets expression with two invalid tokens. -/
theorem clean_collects_all_invalid_witness :
    ∃ l, Site.clean c5Site = Except.error (CleanError.invalidTargets l) ∧
      l = (tokenize c5Site.targets).filter (fun t => !isValidToken t) ∧
      ∀ t ∈ tokenize c5Site.targets, isValidToken t = false → t ∈ l :=
  clean_collects_all_invalid c5Site (by decide)

/-- C9: `Site.clean` validates targets strictly before excluded_targets:
with any invalid target token the raised error lists exactly the invalid
targets, the outcome is identical whatever `excluded_targets` holds (the
field is never inspected), and neither field is canonicalized (no
updated Site is produced). -/
theorem clean_targets_checked_first (s : Site) (e : String)
    (h : (targetExtractor s.targets).invalid_targets ≠ []) :
    Site.clean s
      = Except.error (CleanError.invalidTargets (targetExtractor s.targets).invalid_targets) ∧
    Site.clean { s with excluded_targets := e } = Site.clean s := by
  refine ⟨Site.clean_error_targets s h, ?_⟩
  rw [Site.clean_error_targets s h]
  exact Site.clean_error_targets { s with excluded_targets := e } h

/-- Witness for C9: bad tokens in both fields, only the bad targets are
reported, and replacing the excluded field changes nothing. -/
theorem clean_targets_checked_first_witness :
    Site.clean c9Site
      = Except.error (CleanError.invalidTargets (targetExtractor c9Site.targets).invalid_targets) ∧
    Site.clean { c9Site with excluded_targets := "10.0.0.1" } = Site.clean c9Site :=
  clean_targets_checked_first c9Site "10.0.0.1" (by decide)

/-- C4 counterexample: an IPv4 range token and a hyphenated FQDN are
valid token shapes of spec §4.1, yet fail the persisted-field character
class `^[A-Za-z0-9/.: ]*$` of `Site.targets`, which lacks the hyphen. -/
theorem valid_token_charset_counterexample :
    isValidToken "10.0.0.1-10.0.0.5".data = true ∧
    targetsRegexOK "10.0.0.1-10.0.0.5" = false ∧
    isValidToken "scan-host.example.com".data = true ∧
    targetsRegexOK "scan-host.example.com" = false :=
  ⟨by decide, by decide, by decide, by decide⟩

/-- C4 (amended): every token of the six valid shapes of §4.1 that
contains no hyphen satisfies the persisted character class of
`Site.targets`; the hyphen-bearing tokens (IPv4 ranges and FQDNs with
hyphenated labels), though valid per the token grammar, are rejected by
the persisted regex. -/
theorem valid_token_charset (t : List Char) (h1 : isValidToken t = true)
    (h2 : '-' ∉ t) : targetsRegexOK (List.asString t) = true := by
  show (List.asString t).data.all targetsFieldCharOK = true
  rw [show (List.asString t).data = t from rfl, List.all_eq_true]
  intro c hc
  have hch := validToken_chars h1 c hc
  simp only [tokenCharOK, Bool.or_eq_true, beq_iff_eq] at hch
  rcases hch with ((((ha | ha) | ha) | ha) | ha)
  · simp [targetsFieldCharOK, ha]
  · simp [targetsFieldCharOK, ha]
  · simp [targetsFieldCharOK, ha]
  · simp [targetsFieldCharOK, ha]
  · exact absurd (ha ▸ hc) h2

/-- Witness for the amended C4 at a hyphen-free CIDR token. -/
theorem valid_token_charset_witness :
    isValidToken "10.0.0.0/24".data = true ∧ '-' ∉ "10.0.0.0/24".data ∧
    targetsRegexOK (List.asString "10.0.0.0/24".data) = true :=
  ⟨by decide, by decide, valid_token_charset "10.0.0.0/24".data (by decide) (by decide)⟩

theorem scheduledScanValid_command_le {r : ScheduledScan}
    (h : scheduledScanValid r = true) : r.scan_command.length ≤ 1024 := by
  simp only [scheduledScanValid, Bool.and_eq_true, decide_eq_true_eq] at h
  exact h.1.1.1.1.1.1.1.1.2

/-- C10: `ScanCommand.scan_command` is unbounded text while
`ScheduledScan.scan_command` is capped at 1024 characters: every
ScheduledScan passing its declared validators carries a command of at
most 1024 characters, and a ScanCommand whose text exceeds 1024 — itself
perfectly valid — cannot be copied into a valid ScheduledScan snapshot. -/
theorem scan_command_snapshot_cap (c : ScanCommand) (r r' : ScheduledScan)
    (h0 : scheduledScanValid r' = true) (h1 : scanCommandValid c = true)
    (h2 : 1024 < c.scan_command.length) (h3 : r.scan_command = c.scan_command) :
    r'.scan_command.length ≤ 1024 ∧ scheduledScanValid r = false := by
  refine ⟨scheduledScanValid_command_le h0, ?_⟩
  by_contra hv
  simp only [Bool.not_eq_false] at hv
  have hle := scheduledScanValid_command_le hv
  rw [h3] at hle
  omega

theorem c10Cmd_command_length : c10Cmd.scan_command.length = 1025 := by
  show (List.replicate 1025 'a').length = 1025
  exact List.length_replicate 1025 'a'

/-- Witness for C10 at a 1025-character command. -/
theorem scan_command_snapshot_cap_witness :
    scheduledScanValid sampleRow = true ∧ scanCommandValid c10Cmd = true ∧
    1024 < c10Cmd.scan_command.length ∧
    (sampleRow.scan_command.length ≤ 1024 ∧
      scheduledScanValid { sampleRow with scan_command := c10Cmd.scan_command } = false) :=
  ⟨by decide, by decide, by rw [c10Cmd_command_length]; omega,
    scan_command_snapshot_cap c10Cmd { sampleRow with scan_command := c10Cmd.scan_command }
      sampleRow (by decide) (by decide) (by rw [c10Cmd_command_length]; omega) rfl⟩
